import Mathlib

/-!
# Verification of the Mach-O symbol resolver (`src/file_format/macho.rs`)

A shallow embedding of the module's data model and operations, and proofs
of the specification's claims about them.

Modelling conventions:
* Process memory is a partial byte map `Mem := Nat → Option Nat`; a typed
  read (`process.read::<T>`) is an all-or-nothing little-endian read of
  `size_of::<T>` bytes, `none` standing for the external read's `Err`.
* Addresses and machine integers are modelled as `Nat`.  Where the source's
  fixed-width arithmetic can fail (the `u64` subtraction
  `len - distance_to_page` in `scan_macho_page`, and the out-of-bounds
  slice indexing reachable in `Symbols::find_address` / `slice_read`),
  the failure is made explicit: those operations return
  `Except Unit _`, with `.error ()` standing for the Rust panic
  (debug-build arithmetic overflow, or slice index out of bounds in any
  build).  `.ok` carries the ordinary `Option` result of the source.
* External collaborators whose code is not part of the repository
  (`ArrayCString` name matching, the `Signature` byte-pattern scanner,
  `get_module_path`/file reading) are modelled from the spec; each such
  definition's doc comment says so.
-/

namespace MachO

/-- Process memory: a partial map from byte addresses to byte values.
`none` models an unreadable (unmapped) address, i.e. the external
`Process::read` returning `Err`. -/
abbrev Mem := Nat → Option Nat

/-- Read `n` consecutive bytes starting at `a`; fails if any byte is
unreadable (a typed `process.read::<T>` either reads all of `T` or fails). -/
def readBytes (mem : Mem) (a : Nat) : Nat → Option (List Nat)
  | 0 => some []
  | n + 1 =>
    match mem a with
    | none => none
    | some b =>
      match readBytes mem (a + 1) n with
      | none => none
      | some rest => some (b :: rest)

/-- Little-endian value of a byte list (byte 0 is least significant),
matching the target's native integer layout. -/
def leVal : List Nat → Nat
  | [] => 0
  | b :: rest => b + 256 * leVal rest

/-- `process.read::<u32>(a)`: 4 bytes, little-endian. -/
def readU32 (mem : Mem) (a : Nat) : Option Nat :=
  (readBytes mem a 4).map leVal

/-- `process.read::<u64>(a)`: 8 bytes, little-endian. -/
def readU64 (mem : Mem) (a : Nat) : Option Nat :=
  (readBytes mem a 8).map leVal

/-- `const CSTR: usize = 128` — capacity of the live name reads. -/
def CSTR : Nat := 128

/-- `const MH_MAGIC_32: u32 = 0xfeedface` -/
def MH_MAGIC_32 : Nat := 0xfeedface

/-- `const MH_CIGAM_32: u32 = 0xcefaedfe` -/
def MH_CIGAM_32 : Nat := 0xcefaedfe

/-- `const MH_MAGIC_64: u32 = 0xfeedfacf` -/
def MH_MAGIC_64 : Nat := 0xfeedfacf

/-- `const MH_CIGAM_64: u32 = 0xcffaedfe` -/
def MH_CIGAM_64 : Nat := 0xcffaedfe

/-- `const PAGE_SIZE: u64 = 0x1000` (local to `scan_macho_page`). -/
def PAGE_SIZE : Nat := 0x1000

/-- `const LC_SYMTAB: u32 = 0x2` -/
def LC_SYMTAB : Nat := 0x2

/-- `const LC_SEGMENT_64: u32 = 0x19` -/
def LC_SEGMENT_64 : Nat := 0x19

/-- `const HEADER_SIZE: usize = 32` -/
def HEADER_SIZE : Nat := 32

/-- `crate::PointerSize` (external enum; the two variants this module
produces). -/
inductive PointerSize where
  | Bit32 : PointerSize
  | Bit64 : PointerSize
deriving DecidableEq

/-- The distance from `addr` up to the next `PAGE_SIZE` boundary:
`(PAGE_SIZE - (addr.value() % PAGE_SIZE)) % PAGE_SIZE` ("negation mod
PAGE_SIZE" in the source). -/
def distanceToPage (addr : Nat) : Nat :=
  (PAGE_SIZE - addr % PAGE_SIZE) % PAGE_SIZE

/-- Whether the 4-byte read at `a` yields one of the four Mach-O magic
constants; a failed read counts as a non-match (the `match … Ok(...)`
with a catch-all `_ => ()` in the source's scan loop). -/
def magicAt (mem : Mem) (a : Nat) : Bool :=
  match readU32 mem a with
  | some v => v == MH_MAGIC_64 || v == MH_CIGAM_64 || v == MH_MAGIC_32 || v == MH_CIGAM_32
  | none => false

/-- `scan_macho_page(process, range)`.  The loop bound is
`(len - distance_to_page) / PAGE_SIZE` over `u64`; when
`len < distance_to_page` that subtraction underflows — `.error ()`
models the resulting Rust panic (debug-build arithmetic overflow).
Otherwise `.ok` carries the source's `Option<Address>`: the first page
boundary in the range whose 4-byte read is a Mach-O magic constant. -/
def scan_macho_page (mem : Mem) (range : Nat × Nat) : Except Unit (Option Nat) :=
  let addr := range.1
  let len := range.2
  let distance_to_page := distanceToPage addr
  if len < distance_to_page then
    .error ()
  else
    let first_page := addr + distance_to_page
    .ok ((((List.range ((len - distance_to_page) / PAGE_SIZE)).find?
      (fun i => magicAt mem (first_page + i * PAGE_SIZE))).map
        (fun i => first_page + i * PAGE_SIZE)))

/-- `pointer_size(process, range)`: locate the header page, read its
4-byte magic, classify.  `.error ()` propagates `scan_macho_page`'s
panic case. -/
def pointer_size (mem : Mem) (range : Nat × Nat) : Except Unit (Option PointerSize) :=
  match scan_macho_page mem range with
  | .error e => .error e
  | .ok none => .ok none
  | .ok (some a) =>
    match readU32 mem a with
    | none => .ok none
    | some v =>
      if v = MH_MAGIC_64 ∨ v = MH_CIGAM_64 then .ok (some PointerSize.Bit64)
      else if v = MH_MAGIC_32 ∨ v = MH_CIGAM_32 then .ok (some PointerSize.Bit32)
      else .ok none

/-- `struct MachOFormatOffsets`: the fixed table of Mach-O structural byte
offsets. -/
structure MachOFormatOffsets where
  number_of_commands : Nat
  load_commands : Nat
  command_size : Nat
  symtab_offset : Nat
  number_of_symbols : Nat
  strtab_offset : Nat
  nlist_value : Nat
  size_of_nlist_item : Nat
  segcmd64_vmaddr : Nat
  segcmd64_fileoff : Nat

/-- `MachOFormatOffsets::new()` — the constant offset values. -/
def MachOFormatOffsets.new : MachOFormatOffsets :=
  { number_of_commands := 0x10
    load_commands := 0x20
    command_size := 0x04
    symtab_offset := 0x08
    number_of_symbols := 0x0c
    strtab_offset := 0x10
    nlist_value := 0x08
    size_of_nlist_item := 0x10
    segcmd64_vmaddr := 0x18
    segcmd64_fileoff := 0x28 }

/-- `BTreeMap::insert` on the association-list model of
`BTreeMap<u64, u64>`: keys are unique, a repeated insert overwrites. -/
def mapInsert (m : List (Nat × Nat)) (k v : Nat) : List (Nat × Nat) :=
  (m.filter (fun p => p.1 != k)) ++ [(k, v)]

/-- `Iterator::max_by_key` on the first component, folded left with an
accumulator; on equal keys the later element wins, as in Rust's
`max_by_key`. -/
def pickMax (acc : Option (Nat × Nat)) : List (Nat × Nat) → Option (Nat × Nat)
  | [] => acc
  | p :: rest =>
    pickMax
      (match acc with
       | none => some p
       | some q => if q.1 ≤ p.1 then some p else some q)
      rest

/-- `fileoff_to_vmaddr(map, fileoff)`: among the entries with key
`≤ fileoff` take the one with the greatest key `k` (value `v`) and
return `v + fileoff - k`; with no such entry return `fileoff` itself
(`unwrap_or(fileoff)`). -/
def fileoff_to_vmaddr (map : List (Nat × Nat)) (fileoff : Nat) : Nat :=
  match pickMax none (map.filter (fun p => p.1 ≤ fileoff)) with
  | some p => p.2 + fileoff - p.1
  | none => fileoff

/-- The mutable state of `Symbols::new`'s load-command walk. -/
structure WalkState where
  symtab_fileoff : Nat
  number_of_symbols : Nat
  strtab_fileoff : Nat
  map_fileoff_to_vmaddr : List (Nat × Nat)
  next : Nat
deriving DecidableEq

/-- One iteration of the load-command loop in `Symbols::new`: read the
command type at `page + next`; on `LC_SYMTAB` capture the symtab/strtab
fields, on `LC_SEGMENT_64` insert `(fileoff, vmaddr)` into the map; then
read the command's declared size and advance the cursor.  Any failed
read aborts the whole constructor (`.ok()?`), modelled as `none`. -/
def lcStep (mem : Mem) (page : Nat) (st : WalkState) : Option WalkState :=
  let offsets := MachOFormatOffsets.new
  match readU32 mem (page + st.next) with
  | none => none
  | some cmdtype =>
    let afterCmd : Option WalkState :=
      if cmdtype = LC_SYMTAB then
        match readU32 mem (page + st.next + offsets.symtab_offset) with
        | none => none
        | some so =>
          match readU32 mem (page + st.next + offsets.number_of_symbols) with
          | none => none
          | some ns =>
            match readU32 mem (page + st.next + offsets.strtab_offset) with
            | none => none
            | some sto =>
              some { st with symtab_fileoff := so, number_of_symbols := ns,
                             strtab_fileoff := sto }
      else if cmdtype = LC_SEGMENT_64 then
        match readU64 mem (page + st.next + offsets.segcmd64_vmaddr) with
        | none => none
        | some vmaddr =>
          match readU64 mem (page + st.next + offsets.segcmd64_fileoff) with
          | none => none
          | some fileoff =>
            some { st with map_fileoff_to_vmaddr :=
                     mapInsert st.map_fileoff_to_vmaddr fileoff vmaddr }
      else some st
    match afterCmd with
    | none => none
    | some st2 =>
      match readU32 mem (page + st.next + offsets.command_size) with
      | none => none
      | some command_size => some { st2 with next := st.next + command_size }

/-- `for _i in 0..number_of_commands { … }` — the walk iterated a fixed
number of times. -/
def lcWalk (mem : Mem) (page : Nat) : Nat → WalkState → Option WalkState
  | 0, st => some st
  | n + 1, st =>
    match lcStep mem page st with
    | none => none
    | some st2 => lcWalk mem page n st2

/-- The initial walk state: zeroed captures, empty map, cursor at the
first load command. -/
def initWalk : WalkState :=
  { symtab_fileoff := 0, number_of_symbols := 0, strtab_fileoff := 0,
    map_fileoff_to_vmaddr := [], next := MachOFormatOffsets.new.load_commands }

/-- `struct Symbol` — a resolved symbol: its virtual address and the
virtual address of its NUL-terminated name. -/
structure Symbol where
  address : Nat
  name_addr : Nat
deriving DecidableEq

/-- `struct Symbols` — the session state cached by `Symbols::new`
(the `process` and `module_name` handles are passed explicitly to the
operations instead of being stored). -/
structure Symbols where
  module_range : Nat × Nat
  page : Nat
  symtab_fileoff : Nat
  number_of_symbols : Nat
  strtab_fileoff : Nat
  map_fileoff_to_vmaddr : List (Nat × Nat)
  symtab_vmaddr : Nat
  strtab_vmaddr : Nat
deriving DecidableEq

/-- The session `Symbols::new` builds from a given page and completed
walk state: the captured fields plus the symtab/strtab file offsets
translated once through the map. -/
def mkSymbols (module_range : Nat × Nat) (page : Nat) (st : WalkState) : Symbols :=
  { module_range := module_range
    page := page
    symtab_fileoff := st.symtab_fileoff
    number_of_symbols := st.number_of_symbols
    strtab_fileoff := st.strtab_fileoff
    map_fileoff_to_vmaddr := st.map_fileoff_to_vmaddr
    symtab_vmaddr := fileoff_to_vmaddr st.map_fileoff_to_vmaddr st.symtab_fileoff
    strtab_vmaddr := fileoff_to_vmaddr st.map_fileoff_to_vmaddr st.strtab_fileoff }

/-- `Symbols::new(process, module_name, module_range)`: locate the header
page, read the command count, walk the load commands, fail when the
captured symtab file offset, symbol count or strtab file offset is zero,
otherwise cache everything.  `.error ()` propagates the scan's panic
case; `.ok none` is the source's `None`. -/
def Symbols.new (mem : Mem) (module_range : Nat × Nat) : Except Unit (Option Symbols) :=
  match scan_macho_page mem module_range with
  | .error e => .error e
  | .ok none => .ok none
  | .ok (some page) =>
    match readU32 mem (page + MachOFormatOffsets.new.number_of_commands) with
    | none => .ok none
    | some number_of_commands =>
      match lcWalk mem page number_of_commands initWalk with
      | none => .ok none
      | some st =>
        if st.symtab_fileoff = 0 ∨ st.number_of_symbols = 0 ∨ st.strtab_fileoff = 0 then
          .ok none
        else
          .ok (some (mkSymbols module_range page st))

/-- The body of `Symbols::iter`'s `filter_map` at index `j`: read the
32-bit name offset from the nlist entry at
`page + symtab_vmaddr + j * size_of_nlist_item`, form the name's address
as `page + strtab_vmaddr + symname_offset`, read the entry's 64-bit
value (a file offset), translate it through the map and add the page. -/
def Symbols.iterAt (mem : Mem) (s : Symbols) (j : Nat) : Option Symbol :=
  let offsets := MachOFormatOffsets.new
  let nlist_item := s.page + s.symtab_vmaddr + j * offsets.size_of_nlist_item
  match readU32 mem nlist_item with
  | none => none
  | some symname_offset =>
    let string_address := s.page + s.strtab_vmaddr + symname_offset
    match readU64 mem (nlist_item + offsets.nlist_value) with
    | none => none
    | some symbol_fileoff =>
      some { address := s.page + fileoff_to_vmaddr s.map_fileoff_to_vmaddr symbol_fileoff
             name_addr := string_address }

/-- `Symbols::iter`: `(0..number_of_symbols).filter_map(…)` — indices
whose reads fail are skipped. -/
def Symbols.iter (mem : Mem) (s : Symbols) : List Symbol :=
  (List.range s.number_of_symbols).filterMap (Symbols.iterAt mem s)

/-- Modelled from the spec: `ArrayCString<CAP>::matches` — the stored
name is the byte sequence up to the first NUL, and a lookup matches only
on exact equality with the queried bytes (`crate::string` is not among
the repository files given). -/
def cstringMatches (buf : List Nat) (q : List Nat) : Bool :=
  (buf.takeWhile (fun b => b != 0)) == q

/-- `symbol.get_name::<CSTR>(process).is_ok_and(|name| name.matches(q))`:
read the 128-byte name buffer at the symbol's name address (a failed
read is simply not a match) and compare its NUL-terminated prefix with
the query. -/
def liveNameMatches (mem : Mem) (q : List Nat) (sym : Symbol) : Bool :=
  match readBytes mem sym.name_addr CSTR with
  | some buf => cstringMatches buf q
  | none => false

/-- `&l[i..j]` for lists: drop `i`, take `j - i`. -/
def extract (l : List Nat) (i j : Nat) : List Nat :=
  (l.drop i).take (j - i)

/-- `memchr::memmem::find(haystack, needle)` (external crate, standard
substring-search semantics): the least index at which `needle` occurs in
`haystack` in full. -/
def memFind (hay needle : List Nat) : Option Nat :=
  (List.range (hay.length + 1)).find? (fun i => extract hay i (i + needle.length) == needle)

/-- `slice_read::<u32>(slice, a)`: Rust takes `&slice[a..a+4]` — out of
bounds is a panic (`.error ()`); in bounds, the checked cast of 4 bytes
to `u32` accepts any bit pattern, so the read succeeds. -/
def slice_read32 (slice : List Nat) (a : Nat) : Except Unit Nat :=
  if a + 4 ≤ slice.length then .ok (leVal (extract slice a (a + 4))) else .error ()

/-- `slice_read::<u64>(slice, a)`: as `slice_read32`, 8 bytes. -/
def slice_read64 (slice : List Nat) (a : Nat) : Except Unit Nat :=
  if a + 8 ≤ slice.length then .ok (leVal (extract slice a (a + 8))) else .error ()

/-- `slice_read::<[u8; n]>(slice, a)`: as `slice_read32`, `n` raw bytes. -/
def slice_readArr (slice : List Nat) (a n : Nat) : Except Unit (List Nat) :=
  if a + n ≤ slice.length then .ok (extract slice a (a + n)) else .error ()

/-- Modelled from the spec: the external byte-pattern scanner
(`Signature::<20>::scan_process_range`) — given a byte signature and a
module range, the first address in the range whose bytes read equal to
the signature, or nothing. -/
def scan_process_range (mem : Mem) (sig : List Nat) (range : Nat × Nat) : Option Nat :=
  ((List.range (range.2 + 1 - sig.length)).find?
    (fun d => readBytes mem (range.1 + d) sig.length == some sig)).map
      (fun d => range.1 + d)

/-- The file path's NUL-boundary name test at string-table position
`start`: the byte just past the candidate (`macho_bytes[string_end]`)
must exist and be NUL, and the candidate bytes must equal the query
(`&macho_bytes[string_start..string_end] == symbol_name_bytes`).
`none` from `get?` corresponds to the indexing panic and is folded to
`false` here; `fileStep` keeps the panic explicit. -/
def nameCheckAt (bytes : List Nat) (start : Nat) (q : List Nat) : Bool :=
  match bytes.get? (start + q.length) with
  | none => false
  | some b => b == 0 && extract bytes start (start + q.length) == q

/-- One iteration of `find_address`'s file loop at index `j`:
`.error ()` is a panic (out-of-bounds slice or index), `.ok none` means
this entry does not match (continue), `.ok (some r)` means the entry
matched, its 20-byte signature was extracted and handed to the scanner,
and `r` is the scanner's result (returned from the function as is). -/
def fileStep (mem : Mem) (bytes : List Nat) (s : Symbols) (q : List Nat) (j : Nat) :
    Except Unit (Option (Option Nat)) :=
  let offsets := MachOFormatOffsets.new
  let nlist_item := s.symtab_fileoff + j * offsets.size_of_nlist_item
  match slice_read32 bytes nlist_item with
  | .error e => .error e
  | .ok symname_offset =>
    let string_start := s.strtab_fileoff + symname_offset
    let string_end := string_start + q.length
    match bytes.get? string_end with
    | none => .error ()
    | some b =>
      if b == 0 && extract bytes string_start string_end == q then
        match slice_read64 bytes (nlist_item + offsets.nlist_value) with
        | .error e => .error e
        | .ok symbol_fileoff =>
          match slice_readArr bytes symbol_fileoff 20 with
          | .error e => .error e
          | .ok file_contents =>
            .ok (some (scan_process_range mem file_contents s.module_range))
      else .ok none

/-- `for j in 0..number_of_symbols { … }` of the file path, over an
explicit index list; the first matching entry's scanner result is
returned directly, and a loop that finishes yields `None`. -/
def fileLoop (mem : Mem) (bytes : List Nat) (s : Symbols) (q : List Nat) :
    List Nat → Except Unit (Option Nat)
  | [] => .ok none
  | j :: rest =>
    match fileStep mem bytes s q j with
    | .error e => .error e
    | .ok (some r) => .ok r
    | .ok none => fileLoop mem bytes s q rest

/-- `Symbols::find_address(symbol_name)`.  `file?` stands for the
composition `get_module_path(module_name)` + `file_read_all_bytes`:
`none` when either fails (the source then returns `None`), `some bytes`
for the module file's contents.  First the live path (`iter().find` on
names read from process memory); then the file path: read the 32-byte
header from the live page, locate it in the file, and walk the file's
symbol table.  `.error ()` models the panics reachable in the file loop. -/
def Symbols.find_address (mem : Mem) (file? : Option (List Nat)) (s : Symbols)
    (q : List Nat) : Except Unit (Option Nat) :=
  match (Symbols.iter mem s).find? (liveNameMatches mem q) with
  | some symbol => .ok (some symbol.address)
  | none =>
    match file? with
    | none => .ok none
    | some all_bytes =>
      match readBytes mem s.page HEADER_SIZE with
      | none => .ok none
      | some macho_header =>
        match memFind all_bytes macho_header with
        | none => .ok none
        | some macho_offset =>
          fileLoop mem (all_bytes.drop macho_offset) s q
            (List.range s.number_of_symbols)

/-! ## Concrete images used as test inputs -/

/-- `w` bytes of `v`, little-endian. -/
def storeLE : Nat → Nat → List Nat
  | 0, _ => []
  | w + 1, v => v % 256 :: storeLE w (v / 256)

/-- The bytes `bs` laid out from address `a`, as address/byte pairs. -/
def bytesAt (a : Nat) (bs : List Nat) : List (Nat × Nat) :=
  bs.enum.map (fun p => (a + p.1, p.2))

/-- Memory given by an association list of address/byte pairs; all other
addresses are unreadable. -/
def assocMem (l : List (Nat × Nat)) : Mem :=
  fun a => (l.find? (fun p => p.1 == a)).map Prod.snd

/-- Memory that is one contiguous readable block of bytes from address 0. -/
def listMem (bs : List Nat) : Mem := fun a => bs.get? a

/-- The FileOffsetMap of the spec's synthetic example, built by the two
segment inserts `(fileoff 0, vmaddr 0x1000)` and
`(fileoff 0x2000, vmaddr 0x4000)`. -/
def exampleMap : List (Nat × Nat) :=
  mapInsert (mapInsert [] 0 0x1000) 0x2000 0x4000

/-- A memory whose page 0 holds the little-endian 64-bit magic. -/
def mem5 : Mem := listMem [0xcf, 0xfa, 0xed, 0xfe]

/-- A memory whose first page is unreadable and whose second page
(address 4096) holds the 64-bit magic. -/
def mem6 : Mem :=
  fun a => if a < 4096 then none else [0xcf, 0xfa, 0xed, 0xfe].get? (a - 4096)

/-- A minimal well-formed 64-bit Mach-O image at address 0, 52 readable
bytes: magic, one load command (`LC_SYMTAB` with symtab file offset 32,
one symbol, strtab file offset 1). -/
def memC9bytes : List Nat :=
  [0xcf, 0xfa, 0xed, 0xfe, 0, 0, 0, 0, 0, 0, 0, 0, 0, 0, 0, 0,
   1, 0, 0, 0, 0, 0, 0, 0, 0, 0, 0, 0, 0, 0, 0, 0,
   2, 0, 0, 0, 24, 0, 0, 0, 32, 0, 0, 0, 1, 0, 0, 0,
   1, 0, 0, 0]

/-- The live memory for the malformed-file scenarios. -/
def memC9 : Mem := listMem memC9bytes

/-- The session `Symbols.new` builds from `memC9` over range
`(0, 0x1000)`. -/
def sC9 : Symbols :=
  { module_range := (0, 0x1000)
    page := 0
    symtab_fileoff := 32
    number_of_symbols := 1
    strtab_fileoff := 1
    map_fileoff_to_vmaddr := []
    symtab_vmaddr := 32
    strtab_vmaddr := 1 }

/-- An on-disk file for the `memC9` module: its first 32 bytes are the
live header (so the header search finds offset 0), and the single
symbol-table entry at file offset 32 carries the out-of-range name
offset 0xffff, sending the NUL-boundary index far past the end of the
48-byte buffer. -/
def fileC9 : List Nat :=
  memC9bytes.take 32 ++ [255, 255, 0, 0, 0, 0, 0, 0, 0, 0, 0, 0, 0, 0, 0, 0]

/-- A well-formed image based at the nonzero page 0x1000: magic, one
`LC_SYMTAB` command (symtab file offset 0x40, one symbol, strtab file
offset 0x100), and one readable nlist entry with name offset 7 and
value 0. -/
def memC4 : Mem := assocMem
  (bytesAt 0x1000 (storeLE 4 0xfeedfacf) ++
   bytesAt 0x1010 (storeLE 4 1) ++
   bytesAt 0x1020 (storeLE 4 2) ++
   bytesAt 0x1024 (storeLE 4 24) ++
   bytesAt 0x1028 (storeLE 4 0x40) ++
   bytesAt 0x102c (storeLE 4 1) ++
   bytesAt 0x1030 (storeLE 4 0x100) ++
   bytesAt 0x1040 (storeLE 4 7) ++
   bytesAt 0x1048 (storeLE 8 0))

/-- The session `Symbols.new` builds from `memC4` over range
`(0x1000, 0x2000)`. -/
def sC4 : Symbols :=
  { module_range := (0x1000, 0x2000)
    page := 0x1000
    symtab_fileoff := 0x40
    number_of_symbols := 1
    strtab_fileoff := 0x100
    map_fileoff_to_vmaddr := []
    symtab_vmaddr := 0x40
    strtab_vmaddr := 0x100 }

/-- An image whose one load command is an `LC_SYMTAB` whose recorded
symbol-table file offset is 0 while the symbol count (5) and string
table offset (1) are nonzero. -/
def memC3 : Mem := assocMem
  (bytesAt 0x0 (storeLE 4 0xfeedfacf) ++
   bytesAt 0x10 (storeLE 4 1) ++
   bytesAt 0x20 (storeLE 4 2) ++
   bytesAt 0x24 (storeLE 4 24) ++
   bytesAt 0x28 (storeLE 4 0) ++
   bytesAt 0x2c (storeLE 4 5) ++
   bytesAt 0x30 (storeLE 4 1))

/-- The on-disk file of the file-fallback success scenario (64 bytes):
bytes 0..31 mirror the live header, the symbol entry at file offset 8
has name offset 0 and value 30, the 20-byte signature sits at file
offset 30, and the string table at offset 50 holds the name "a". -/
def fileW2 : List Nat :=
  [200, 201, 202, 203, 204, 205, 206, 207,
   0, 0, 0, 0, 1, 1, 1, 1,
   30, 0, 0, 0, 0, 0, 0, 0,
   2, 2, 2, 2, 2, 2,
   50, 51, 52, 53, 54, 55, 56, 57, 58, 59,
   60, 61, 62, 63, 64, 65, 66, 67, 68, 69,
   97, 0, 3, 3, 3, 3, 3, 3, 3, 3, 3, 3, 3, 3]

/-- The live memory of the file-fallback success scenario: the header
bytes (mirroring the file), then the relocated copy of the file's
20-byte signature at address 32. -/
def memW2 : Mem := listMem (fileW2.take 32 ++ extract fileW2 30 50)

/-- The session of the file-fallback success scenario: its symbol table
points at unreadable live memory (address 100), so the live path yields
no symbol and the file path decides the lookup. -/
def sW2 : Symbols :=
  { module_range := (0, 64)
    page := 0
    symtab_fileoff := 8
    number_of_symbols := 1
    strtab_fileoff := 50
    map_fileoff_to_vmaddr := []
    symtab_vmaddr := 100
    strtab_vmaddr := 0 }

instance {ε α : Type} [DecidableEq ε] [DecidableEq α] : DecidableEq (Except ε α) :=
  fun a b =>
    match a, b with
    | .error x, .error y =>
      if h : x = y then Decidable.isTrue (by rw [h])
      else Decidable.isFalse (fun hc => h (by cases hc; rfl))
    | .error _, .ok _ => Decidable.isFalse (fun hc => Except.noConfusion hc)
    | .ok _, .error _ => Decidable.isFalse (fun hc => Except.noConfusion hc)
    | .ok x, .ok y =>
      if h : x = y then Decidable.isTrue (by rw [h])
      else Decidable.isFalse (fun hc => h (by cases hc; rfl))

/-! ## Helper lemmas -/

theorem pickMax_eq_none : ∀ (l : List (Nat × Nat)) (acc : Option (Nat × Nat)),
    pickMax acc l = none ↔ (acc = none ∧ l = []) := by
  intro l
  induction l with
  | nil => intro acc; simp [pickMax]
  | cons p rest ih =>
    intro acc
    simp only [pickMax, ih]
    cases acc with
    | none => simp
    | some q => by_cases hle : q.1 ≤ p.1 <;> simp [hle]

theorem pickMax_mem_le : ∀ (l : List (Nat × Nat)) (acc : Option (Nat × Nat))
    (r : Nat × Nat), pickMax acc l = some r →
    (acc = some r ∨ r ∈ l) ∧ (∀ q, acc = some q → q.1 ≤ r.1) ∧
      ∀ p ∈ l, p.1 ≤ r.1 := by
  intro l
  induction l with
  | nil =>
    intro acc r h
    simp only [pickMax] at h
    refine ⟨Or.inl h, fun q hq => ?_, by simp⟩
    rw [h] at hq
    injection hq with e
    exact e ▸ le_rfl
  | cons p rest ih =>
    intro acc r h
    simp only [pickMax] at h
    cases acc with
    | none =>
      obtain ⟨hmem, hacc, hrest⟩ := ih (some p) r h
      refine ⟨Or.inr ?_, ?_, ?_⟩
      · rcases hmem with hm | hm
        · injection hm with hm
          exact hm ▸ List.mem_cons_self p rest
        · exact List.mem_cons_of_mem p hm
      · intro q hq
        exact absurd hq (by simp)
      · intro x hx
        rcases List.mem_cons.mp hx with rfl | hx'
        · exact hacc x rfl
        · exact hrest x hx'
    | some q =>
      have h2 : pickMax (if q.1 ≤ p.1 then some p else some q) rest = some r := h
      by_cases hle : q.1 ≤ p.1
      · rw [if_pos hle] at h2
        obtain ⟨hmem, hacc, hrest⟩ := ih (some p) r h2
        refine ⟨Or.inr ?_, ?_, ?_⟩
        · rcases hmem with hm | hm
          · injection hm with hm
            exact hm ▸ List.mem_cons_self p rest
          · exact List.mem_cons_of_mem p hm
        · intro q2 hq2
          injection hq2 with e
          exact e ▸ le_trans hle (hacc p rfl)
        · intro x hx
          rcases List.mem_cons.mp hx with rfl | hx'
          · exact hacc x rfl
          · exact hrest x hx'
      · rw [if_neg hle] at h2
        obtain ⟨hmem, hacc, hrest⟩ := ih (some q) r h2
        refine ⟨?_, ?_, ?_⟩
        · rcases hmem with hm | hm
          · exact Or.inl hm
          · exact Or.inr (List.mem_cons_of_mem p hm)
        · intro q2 hq2
          injection hq2 with e
          exact e ▸ hacc q rfl
        · intro x hx
          rcases List.mem_cons.mp hx with rfl | hx'
          · exact le_trans (Nat.le_of_lt (Nat.lt_of_not_le hle)) (hacc q rfl)
          · exact hrest x hx'

theorem find?_range'_eq_some (p : Nat → Bool) :
    ∀ (n s i : Nat), (List.range' s n).find? p = some i ↔
      (s ≤ i ∧ i < s + n ∧ p i = true ∧ ∀ j, s ≤ j → j < i → p j = false) := by
  intro n
  induction n with
  | zero =>
    intro s i
    simp only [List.range']
    constructor
    · intro h
      exact absurd h (by simp)
    · rintro ⟨h1, h2, _, _⟩
      omega
  | succ n ih =>
    intro s i
    rw [List.range'_succ, List.find?_cons]
    cases hps : p s with
    | true =>
      simp only []
      constructor
      · intro h
        injection h with e
        subst e
        exact ⟨le_rfl, by omega, hps, fun j h1 h2 => by omega⟩
      · rintro ⟨h1, _, _, h4⟩
        have : i = s := by
          by_contra hne
          have hlt : s < i := Nat.lt_of_le_of_ne h1 (Ne.symm hne)
          have := h4 s le_rfl hlt
          rw [hps] at this
          exact Bool.noConfusion this
        rw [this]
    | false =>
      simp only []
      rw [ih (s + 1) i]
      constructor
      · rintro ⟨h1, h2, h3, h4⟩
        refine ⟨by omega, by omega, h3, fun j hj1 hj2 => ?_⟩
        rcases Nat.eq_or_lt_of_le hj1 with rfl | hlt
        · exact hps
        · exact h4 j hlt hj2
      · rintro ⟨h1, h2, h3, h4⟩
        have his : i ≠ s := fun e => by rw [e, hps] at h3; exact Bool.noConfusion h3
        refine ⟨by omega, by omega, h3, fun j hj1 hj2 => h4 j (by omega) hj2⟩

theorem find?_range_eq_some (p : Nat → Bool) (n i : Nat) :
    (List.range n).find? p = some i ↔
      (i < n ∧ p i = true ∧ ∀ j, j < i → p j = false) := by
  rw [List.range_eq_range', find?_range'_eq_some]
  constructor
  · rintro ⟨_, h2, h3, h4⟩
    exact ⟨by omega, h3, fun j hj => h4 j (Nat.zero_le j) hj⟩
  · rintro ⟨h1, h2, h3⟩
    exact ⟨Nat.zero_le i, by omega, h2, fun j _ hj => h3 j hj⟩

/-! ## Claim theorems -/

/-- Claim C1 (amended): `fileoff_to_vmaddr` is a floor lookup — with at
least one entry of key `≤ f` it returns `v + (f - k)` for a maximal such
entry `(k, v)`, and with none it returns `f` itself; on the map built
from the segments `(0, 0x1000)` and `(0x2000, 0x4000)`, file offset
0x2500 maps to 0x4500 and 0x500 to 0x1500, while 0x0 is covered by the
entry with fileoff 0 and therefore maps to 0x1000, not to itself. -/
theorem fileoff_to_vmaddr_spec (map : List (Nat × Nat)) (f : Nat) :
    ((∀ p ∈ map, f < p.1) → fileoff_to_vmaddr map f = f) ∧
    ((∃ p ∈ map, p.1 ≤ f) →
      ∃ k v, (k, v) ∈ map ∧ k ≤ f ∧ (∀ q ∈ map, q.1 ≤ f → q.1 ≤ k) ∧
        fileoff_to_vmaddr map f = v + (f - k)) ∧
    fileoff_to_vmaddr exampleMap 0x2500 = 0x4500 ∧
    fileoff_to_vmaddr exampleMap 0x500 = 0x1500 ∧
    fileoff_to_vmaddr exampleMap 0x0 = 0x1000 := by
  refine ⟨?_, ?_, by decide, by decide, by decide⟩
  · intro hall
    have hfil : map.filter (fun p => p.1 ≤ f) = [] := by
      rw [List.filter_eq_nil_iff]
      intro a ha
      simp only [decide_eq_true_eq]
      exact Nat.not_le.mpr (hall a ha)
    unfold fileoff_to_vmaddr
    rw [hfil]
    rfl
  · rintro ⟨p, hp, hple⟩
    have hmem : p ∈ map.filter (fun x => x.1 ≤ f) :=
      List.mem_filter.mpr ⟨hp, by simpa using hple⟩
    cases hpick : pickMax none (map.filter (fun x => x.1 ≤ f)) with
    | none =>
      rw [pickMax_eq_none] at hpick
      rw [hpick.2] at hmem
      exact absurd hmem (List.not_mem_nil p)
    | some r =>
      obtain ⟨hmem2, _, hmax⟩ := pickMax_mem_le _ none r hpick
      have hrfil : r ∈ map.filter (fun x => x.1 ≤ f) := by
        rcases hmem2 with hm | hm
        · exact absurd hm (by simp)
        · exact hm
      obtain ⟨hrmap, hrle⟩ := List.mem_filter.mp hrfil
      have hrle2 : r.1 ≤ f := by simpa using hrle
      refine ⟨r.1, r.2, by simpa using hrmap, hrle2, ?_, ?_⟩
      · intro q hq hqle
        exact hmax q (List.mem_filter.mpr ⟨hq, by simpa using hqle⟩)
      · unfold fileoff_to_vmaddr
        rw [hpick]
        simp only []
        omega

/-- Claim C1, counterexample to the claim as stated: on the map built
from segments with file offsets 0 and 0x2000, translating file offset
0x0 does not fall back to the identity — the entry with fileoff 0
applies, so the result is its vmaddr 0x1000, not 0x0. -/
theorem fileoff_to_vmaddr_zero_cex :
    fileoff_to_vmaddr exampleMap 0x0 = 0x1000 ∧ (0x1000 : Nat) ≠ 0x0 :=
  ⟨by decide, by decide⟩

/-- Claim C1, witness: the identity fallback at a concrete input with no
entry below the queried offset. -/
theorem fileoff_to_vmaddr_spec_witness :
    fileoff_to_vmaddr [(0x2000, 0x4000)] 0x500 = 0x500 :=
  (fileoff_to_vmaddr_spec [(0x2000, 0x4000)] 0x500).1 (by decide)

/-- Claim C10 (amended): the page scan is total exactly on the ranges
whose length reaches the first page boundary: when
`distanceToPage addr ≤ len` the subtraction cannot underflow and the
scan returns an `Option`; when `len < distanceToPage addr` the `u64`
subtraction `len - distance_to_page` underflows and the function
panics (modelled by `.error ()`) instead of returning nothing. -/
theorem scan_totality_spec (mem : Mem) (addr len : Nat) :
    (distanceToPage addr ≤ len →
      ∃ r, scan_macho_page mem (addr, len) = .ok r) ∧
    (len < distanceToPage addr →
      scan_macho_page mem (addr, len) = .error ()) := by
  constructor
  · intro h
    refine ⟨((List.range ((len - distanceToPage addr) / PAGE_SIZE)).find?
      (fun i => magicAt mem (addr + distanceToPage addr + i * PAGE_SIZE))).map
        (fun i => addr + distanceToPage addr + i * PAGE_SIZE), ?_⟩
    unfold scan_macho_page
    rw [if_neg (Nat.not_lt.mpr h)]
  · intro h
    unfold scan_macho_page
    rw [if_pos h]

/-- Claim C10, counterexample to the claim as stated: the range with
base 1 and length 100 has a page distance of 4095 > 100, so the
subtraction underflows and the scan panics rather than returning an
`Option`. -/
theorem scan_underflow_cex :
    (100 : Nat) < distanceToPage 1 ∧
    scan_macho_page (fun _ => none) (1, 100) = .error () :=
  ⟨by decide, by decide⟩

/-- Claim C10, witness: a concrete too-small range on which the panic
case fires. -/
theorem scan_totality_spec_witness :
    scan_macho_page (fun _ => none) (5, 2) = .error () :=
  (scan_totality_spec (fun _ => none) 5 2).2 (by decide)

/-- Claim C6 (amended, for ranges reaching their first page boundary):
the scan starts at `addr + distanceToPage addr`, the least page-aligned
address at or after the base; a failed 4-byte read is a non-match; the
scan returns nothing exactly when no scanned page boundary holds a magic
value, and returns an address exactly when it is the first page boundary
in the range whose 4-byte read is one of the four magic constants.
(Ranges with `len < distanceToPage addr` instead underflow and panic —
see the scan-totality theorems.) -/
theorem scan_macho_page_spec (mem : Mem) (addr len : Nat)
    (h : distanceToPage addr ≤ len) :
    ((addr + distanceToPage addr) % PAGE_SIZE = 0 ∧
     (∀ a, addr ≤ a → a % PAGE_SIZE = 0 → addr + distanceToPage addr ≤ a)) ∧
    (∀ a, readU32 mem a = none → magicAt mem a = false) ∧
    (scan_macho_page mem (addr, len) = .ok none ↔
      ∀ i, i < (len - distanceToPage addr) / PAGE_SIZE →
        magicAt mem (addr + distanceToPage addr + i * PAGE_SIZE) = false) ∧
    (∀ a, scan_macho_page mem (addr, len) = .ok (some a) ↔
      ∃ i, i < (len - distanceToPage addr) / PAGE_SIZE ∧
        a = addr + distanceToPage addr + i * PAGE_SIZE ∧ magicAt mem a = true ∧
        ∀ j, j < i →
          magicAt mem (addr + distanceToPage addr + j * PAGE_SIZE) = false) := by
  have hscan : scan_macho_page mem (addr, len) =
      .ok (((List.range ((len - distanceToPage addr) / PAGE_SIZE)).find?
        (fun i => magicAt mem (addr + distanceToPage addr + i * PAGE_SIZE))).map
          (fun i => addr + distanceToPage addr + i * PAGE_SIZE)) := by
    unfold scan_macho_page
    rw [if_neg (Nat.not_lt.mpr h)]
  refine ⟨⟨?_, ?_⟩, ?_, ?_, ?_⟩
  · unfold distanceToPage PAGE_SIZE
    omega
  · intro a ha hal
    unfold distanceToPage PAGE_SIZE at *
    omega
  · intro a ha
    unfold magicAt
    rw [ha]
  · rw [hscan]
    simp only [Except.ok.injEq, Option.map_eq_none']
    rw [List.find?_eq_none]
    constructor
    · intro hnone i hi
      have := hnone i (List.mem_range.mpr hi)
      simpa using this
    · intro hall x hx
      have := hall x (List.mem_range.mp hx)
      simp [this]
  · intro a
    rw [hscan]
    simp only [Except.ok.injEq, Option.map_eq_some']
    constructor
    · rintro ⟨i, hfind, rfl⟩
      obtain ⟨h1, h2, h3⟩ := (find?_range_eq_some _ _ _).mp hfind
      exact ⟨i, h1, rfl, h2, h3⟩
    · rintro ⟨i, h1, rfl, h2, h3⟩
      exact ⟨i, (find?_range_eq_some _ _ _).mpr ⟨h1, h2, h3⟩, rfl⟩

/-- Claim C6, counterexample to the claim as stated: a range too short
to contain any page boundary (base 3, length 5) is "exhausted without a
match", yet the scan does not return nothing — the bound subtraction
underflows and it panics. -/
theorem scan_small_range_cex :
    scan_macho_page (fun _ => none) (3, 5) = .error () ∧
    (Except.error () : Except Unit (Option Nat)) ≠ .ok none :=
  ⟨by decide, fun hc => Except.noConfusion hc⟩

/-- Claim C6, witness: on a memory whose first page is unreadable and
whose second page boundary (4096) holds 64-bit magic, the scan over
`(0, 8192)` returns exactly that second boundary. -/
theorem scan_macho_page_spec_witness :
    scan_macho_page mem6 (0, 8192) = .ok (some 4096) :=
  ((scan_macho_page_spec mem6 0 8192 (by decide)).2.2.2 4096).mpr
    ⟨1, by decide, by decide, by decide, by decide⟩

/-- Claim C5: `pointer_size` classifies the 4-byte value at the located
header page — 64-bit for either 64-bit magic constant, 32-bit for either
32-bit magic constant, nothing otherwise, and nothing when the scan
locates no header page. -/
theorem pointer_size_spec (mem : Mem) (range : Nat × Nat) :
    (scan_macho_page mem range = .ok none → pointer_size mem range = .ok none) ∧
    (∀ a v, scan_macho_page mem range = .ok (some a) → readU32 mem a = some v →
      ((pointer_size mem range = .ok (some PointerSize.Bit64) ↔
         (v = MH_MAGIC_64 ∨ v = MH_CIGAM_64)) ∧
       (pointer_size mem range = .ok (some PointerSize.Bit32) ↔
         (v = MH_MAGIC_32 ∨ v = MH_CIGAM_32)) ∧
       (pointer_size mem range = .ok none ↔
         (¬(v = MH_MAGIC_64 ∨ v = MH_CIGAM_64) ∧
          ¬(v = MH_MAGIC_32 ∨ v = MH_CIGAM_32))))) := by
  constructor
  · intro h
    unfold pointer_size
    rw [h]
  · intro a v hs hr
    have hne : ¬((v = MH_MAGIC_64 ∨ v = MH_CIGAM_64) ∧
        (v = MH_MAGIC_32 ∨ v = MH_CIGAM_32)) := by
      rintro ⟨h64 | h64, h32 | h32⟩ <;> rw [h64] at h32 <;> exact absurd h32 (by decide)
    have hps : pointer_size mem range =
        (if v = MH_MAGIC_64 ∨ v = MH_CIGAM_64 then Except.ok (some PointerSize.Bit64)
         else if v = MH_MAGIC_32 ∨ v = MH_CIGAM_32 then Except.ok (some PointerSize.Bit32)
         else Except.ok none) := by
      unfold pointer_size
      rw [hs]
      simp only [hr]
    by_cases h64 : v = MH_MAGIC_64 ∨ v = MH_CIGAM_64
    · have h32 : ¬(v = MH_MAGIC_32 ∨ v = MH_CIGAM_32) := fun h32 => hne ⟨h64, h32⟩
      rw [hps, if_pos h64]
      refine ⟨⟨fun _ => h64, fun _ => rfl⟩, ?_, ?_⟩
      · constructor
        · intro hc
          injection hc with e
          injection e with e2
          exact absurd e2 (by decide)
        · intro hh
          exact absurd hh h32
      · constructor
        · intro hc
          injection hc with e
          exact absurd e (by simp)
        · rintro ⟨hna, _⟩
          exact absurd h64 hna
    · rw [hps, if_neg h64]
      by_cases h32 : v = MH_MAGIC_32 ∨ v = MH_CIGAM_32
      · rw [if_pos h32]
        refine ⟨?_, ⟨fun _ => h32, fun _ => rfl⟩, ?_⟩
        · constructor
          · intro hc
            injection hc with e
            injection e with e2
            exact absurd e2 (by decide)
          · intro hh
            exact absurd hh h64
        · constructor
          · intro hc
            injection hc with e
            exact absurd e (by simp)
          · rintro ⟨_, hnb⟩
            exact absurd h32 hnb
      · rw [if_neg h32]
        refine ⟨?_, ?_, ⟨fun _ => ⟨h64, h32⟩, fun _ => rfl⟩⟩
        · constructor
          · intro hc
            injection hc with e
            exact absurd e (by simp)
          · intro hh
            exact absurd hh h64
        · constructor
          · intro hc
            injection hc with e
            exact absurd e (by simp)
          · intro hh
            exact absurd hh h32

/-- Claim C5, witness: the range `(0, 4096)` over a memory whose page 0
carries the little-endian 64-bit magic classifies as 64-bit. -/
theorem pointer_size_spec_witness :
    pointer_size mem5 (0, 4096) = .ok (some PointerSize.Bit64) :=
  ((pointer_size_spec mem5 (0, 4096)).2 0 0xfeedfacf (by decide) (by decide)).1.mpr
    (Or.inl rfl)

/-- Claim C3 (amended): `Symbols.new` fails in exactly these cases — no
header page located by the scan; a failed read of the command count or
of any field during the load-command walk; or any of the three resolved
values (symbol-table file offset, symbol count, string-table file
offset) equal to zero, which covers both the absence of an `LC_SYMTAB`
command and an `LC_SYMTAB` whose recorded fields are zero.  Otherwise it
returns the session built from the completed walk. -/
theorem symbols_new_spec (mem : Mem) (rng : Nat × Nat) :
    (scan_macho_page mem rng = .ok none → Symbols.new mem rng = .ok none) ∧
    (∀ page, scan_macho_page mem rng = .ok (some page) →
      (readU32 mem (page + MachOFormatOffsets.new.number_of_commands) = none →
        Symbols.new mem rng = .ok none) ∧
      (∀ ncmds,
        readU32 mem (page + MachOFormatOffsets.new.number_of_commands) = some ncmds →
        (lcWalk mem page ncmds initWalk = none → Symbols.new mem rng = .ok none) ∧
        (∀ st, lcWalk mem page ncmds initWalk = some st →
          ((st.symtab_fileoff = 0 ∨ st.number_of_symbols = 0 ∨ st.strtab_fileoff = 0) →
            Symbols.new mem rng = .ok none) ∧
          (st.symtab_fileoff ≠ 0 → st.number_of_symbols ≠ 0 → st.strtab_fileoff ≠ 0 →
            Symbols.new mem rng = .ok (some (mkSymbols rng page st)))))) := by
  constructor
  · intro h
    unfold Symbols.new
    rw [h]
  · intro page hpage
    constructor
    · intro h
      unfold Symbols.new
      rw [hpage]
      simp only [h]
    · intro ncmds hncmds
      constructor
      · intro h
        unfold Symbols.new
        rw [hpage]
        simp only [hncmds, h]
      · intro st hst
        constructor
        · intro h
          unfold Symbols.new
          rw [hpage]
          simp only [hncmds, hst]
          rw [if_pos h]
        · intro h1 h2 h3
          unfold Symbols.new
          rw [hpage]
          simp only [hncmds, hst]
          rw [if_neg (by simp [h1, h2, h3])]

/-- Claim C3, counterexample to the claim as stated: an image whose
header page is found, whose single load command is an `LC_SYMTAB`
(command type 2), and whose resolved symbol count (5) and string-table
offset (1) are nonzero — yet construction returns nothing, because the
`LC_SYMTAB`'s recorded symbol-table file offset is 0, a failure case the
claim does not list. -/
theorem symbols_new_zero_symtab_cex :
    scan_macho_page memC3 (0, 0x1000) = .ok (some 0) ∧
    readU32 memC3 (0 + MachOFormatOffsets.new.load_commands) = some LC_SYMTAB ∧
    readU32 memC3 (0x20 + MachOFormatOffsets.new.number_of_symbols) = some 5 ∧
    readU32 memC3 (0x20 + MachOFormatOffsets.new.strtab_offset) = some 1 ∧
    Symbols.new memC3 (0, 0x1000) = .ok none :=
  ⟨by decide, by decide, by decide, by decide, by decide⟩

/-- Claim C3, witness: a complete well-formed image on which every
success condition of the characterization is discharged concretely. -/
theorem symbols_new_spec_witness :
    Symbols.new memC9 (0, 0x1000) =
      .ok (some (mkSymbols (0, 0x1000) 0 ⟨32, 1, 1, [], 56⟩)) :=
  ((((symbols_new_spec memC9 (0, 0x1000)).2 0 (by decide)).2 1 (by decide)).2
    ⟨32, 1, 1, [], 56⟩ (by decide)).2 (by decide) (by decide) (by decide)

/-- Claim C4 (amended): for any session and index `j`, the iteration
reads the nlist entry at `page + symtab_vmaddr + j * 16` (entry size 16
bytes), forms the name address as `page + strtab_vmaddr + name_offset`
from the entry's 32-bit name-offset field, and forms the symbol address
by translating the entry's 64-bit value field through the
FileOffsetMap and adding the image's located page — the cached
`symtab_vmaddr`/`strtab_vmaddr` and the translated value are all offset
by `page`, which the claim's formulas omit. -/
theorem iterAt_spec (mem : Mem) (s : Symbols) (j o v : Nat)
    (h1 : readU32 mem (s.page + s.symtab_vmaddr + j * 16) = some o)
    (h2 : readU64 mem (s.page + s.symtab_vmaddr + j * 16 + 8) = some v) :
    Symbols.iterAt mem s j =
      some { address := s.page + fileoff_to_vmaddr s.map_fileoff_to_vmaddr v
             name_addr := s.page + s.strtab_vmaddr + o } := by
  unfold Symbols.iterAt
  simp only [MachOFormatOffsets.new]
  rw [show (0x10 : Nat) = 16 from rfl, show (0x08 : Nat) = 8 from rfl, h1, h2]

/-- Claim C4, witness: the spec formulas evaluated on a concretely
constructed session. -/
theorem iterAt_spec_witness :
    Symbols.iterAt memC9 sC9 0 = some { address := 4294967328, name_addr := 3 } :=
  (iterAt_spec memC9 sC9 0 2 4294967328 (by decide) (by decide)).trans (by decide)

/-- Claim C4, counterexample to the claim as stated: a session
constructed at the nonzero page 0x1000.  The entry is read at
`page + symtab_vmaddr + j*16`, not at `symtab_vmaddr + j*16`; the
resulting symbol's name address is `page + strtab_vmaddr + 7 = 0x1107`,
not `strtab_vmaddr + 7 = 0x107`; and its address is `page + 0 = 0x1000`,
not the bare translated value 0. -/
theorem iter_addresses_page_cex :
    Symbols.new memC4 (0x1000, 0x2000) = .ok (some sC4) ∧
    readU32 memC4 (sC4.page + sC4.symtab_vmaddr + 0 * 16) = some 7 ∧
    Symbols.iterAt memC4 sC4 0 = some { address := 0x1000, name_addr := 0x1107 } ∧
    sC4.strtab_vmaddr + 7 = 0x107 ∧ (0x1107 : Nat) ≠ 0x107 ∧
    fileoff_to_vmaddr sC4.map_fileoff_to_vmaddr 0 = 0 ∧ (0x1000 : Nat) ≠ 0 :=
  ⟨by decide, by decide, by decide, by decide, by decide, by decide, by decide⟩

/-- Claim C7: the iteration yields at most `number_of_symbols` symbols;
index `j` is skipped exactly when one of its two required reads (the
32-bit name offset, the 64-bit value) fails; and iteration is
restartable — against an unchanged memory it yields the identical
sequence. -/
theorem iter_length_skip_restart (mem mem2 : Mem) (s : Symbols) (h : mem = mem2) :
    (Symbols.iter mem s).length ≤ s.number_of_symbols ∧
    (∀ j, j < s.number_of_symbols →
      (Symbols.iterAt mem s j = none ↔
        readU32 mem (s.page + s.symtab_vmaddr + j * 16) = none ∨
        readU64 mem (s.page + s.symtab_vmaddr + j * 16 + 8) = none)) ∧
    Symbols.iter mem s = Symbols.iter mem2 s := by
  refine ⟨?_, ?_, by rw [h]⟩
  · have hle := List.length_filterMap_le (Symbols.iterAt mem s)
      (List.range s.number_of_symbols)
    rw [List.length_range] at hle
    exact hle
  · intro j hj
    unfold Symbols.iterAt
    simp only [MachOFormatOffsets.new]
    rw [show (0x10 : Nat) = 16 from rfl, show (0x08 : Nat) = 8 from rfl]
    cases hr : readU32 mem (s.page + s.symtab_vmaddr + j * 16) with
    | none => simp [hr]
    | some o =>
      cases hr2 : readU64 mem (s.page + s.symtab_vmaddr + j * 16 + 8) with
      | none => simp [hr2]
      | some v => simp [hr2]

/-- Claim C7, witness: the length bound evaluated on a concrete
session. -/
theorem iter_length_skip_restart_witness :
    (Symbols.iter memC9 sC9).length ≤ sC9.number_of_symbols :=
  (iter_length_skip_restart memC9 memC9 sC9 rfl).1

/-- Claim C9: evaluation of the code at the failing input.  On a
well-formed live image (the session is built by `Symbols.new` itself)
whose on-disk file carries a symbol entry with name offset 0xffff, the
file-fallback path of `find_address` indexes
`macho_bytes[string_end]` out of bounds and panics (`.error ()`)
instead of degrading to "nothing". -/
theorem find_address_oob_panic :
    Symbols.new memC9 (0, 0x1000) = .ok (some sC9) ∧
    Symbols.find_address memC9 (some fileC9) sC9 [97] = .error () :=
  ⟨by decide, by decide⟩

theorem takeWhile_nulfree (name rest : List Nat) (h : 0 ∉ name) :
    (name ++ 0 :: rest).takeWhile (fun b => b != 0) = name := by
  induction name with
  | nil => simp [List.takeWhile_cons]
  | cons a nm ih =>
    have ha : a ≠ 0 := fun e => h (by simp [e])
    have hnm : 0 ∉ nm := fun hm => h (List.mem_cons_of_mem a hm)
    simp [List.takeWhile_cons, ha, ih hnm]

theorem takeWhile_of_take : ∀ (q d : List Nat), 0 ∉ q →
    d.take q.length = q → d.get? q.length = some 0 →
    d.takeWhile (fun b => b != 0) = q := by
  intro q
  induction q with
  | nil =>
    intro d _ _ hget
    cases d with
    | nil => exact absurd hget (by simp)
    | cons b d2 =>
      simp only [List.length_nil, List.get?] at hget
      injection hget with e
      rw [e]
      simp [List.takeWhile_cons]
  | cons a q2 ih =>
    intro d hnot htake hget
    cases d with
    | nil => exact absurd htake (by simp)
    | cons b d2 =>
      rw [List.length_cons, List.take_succ_cons] at htake
      injection htake with e1 e2
      subst e1
      have hb : b ≠ 0 := fun e => hnot (by simp [e])
      have hq2 : 0 ∉ q2 := fun hm => hnot (List.mem_cons_of_mem _ hm)
      have hget2 : d2.get? q2.length = some 0 := hget
      simp [List.takeWhile_cons, hb, ih d2 hq2 e2 hget2]

theorem nameCheckAt_true_iff (bytes : List Nat) (start : Nat) (q : List Nat) :
    nameCheckAt bytes start q = true ↔
      (bytes.get? (start + q.length) = some 0 ∧
       extract bytes start (start + q.length) = q) := by
  unfold nameCheckAt
  cases h : bytes.get? (start + q.length) with
  | none =>
    constructor
    · intro hc
      exact absurd hc (by simp)
    · rintro ⟨h0, _⟩
      exact absurd h0 (by simp)
  | some b =>
    simp only [Bool.and_eq_true, beq_iff_eq, Option.some.injEq]

theorem extract_eq_take_drop (bytes : List Nat) (start n : Nat) :
    extract bytes start (start + n) = (bytes.drop start).take n := by
  unfold extract
  rw [Nat.add_sub_cancel_left]

/-- Claim C8: name lookup matches only whole NUL-terminated names.
Live path (name matching modelled from the spec, `crate::string` not
being among the given files): a 128-byte buffer holding
`name ++ 0 :: …` matches the query exactly when the query equals
`name`.  File path (the source's NUL-boundary test): when the string
table holds `name` NUL-terminated at position `start`, the check
accepts a query exactly when it equals `name` — so a query that is a
strict prefix of the stored name, or of which the stored name is a
strict prefix, is rejected. -/
theorem name_match_exactness (q name rest bytes : List Nat) (start : Nat)
    (hq : 0 ∉ q) (hname : 0 ∉ name)
    (hstore : (bytes.drop start).take name.length = name)
    (hnul : bytes.get? (start + name.length) = some 0) :
    (cstringMatches (name ++ 0 :: rest) q = true ↔ q = name) ∧
    (nameCheckAt bytes start q = true ↔ q = name) := by
  constructor
  · unfold cstringMatches
    rw [takeWhile_nulfree name rest hname, beq_iff_eq]
    exact eq_comm
  · rw [nameCheckAt_true_iff, extract_eq_take_drop]
    constructor
    · rintro ⟨h0, hextr⟩
      have hnul2 : (bytes.drop start).get? q.length = some 0 := by
        rw [List.get?_drop]
        exact h0
      have e1 := takeWhile_of_take q (bytes.drop start) hq hextr hnul2
      have hnul3 : (bytes.drop start).get? name.length = some 0 := by
        rw [List.get?_drop]
        exact hnul
      have e2 := takeWhile_of_take name (bytes.drop start) hname hstore hnul3
      rw [← e1, e2]
    · rintro rfl
      exact ⟨hnul, hstore⟩

/-- Claim C8, witness: the stored name "foobar" rejects the query "foo"
on both paths. -/
theorem name_match_exactness_witness :
    cstringMatches [102, 111, 111, 98, 97, 114, 0] [102, 111, 111] = false ∧
    nameCheckAt [102, 111, 111, 98, 97, 114, 0] 0 [102, 111, 111] = false := by
  have h := name_match_exactness [102, 111, 111] [102, 111, 111, 98, 97, 114] []
    [102, 111, 111, 98, 97, 114, 0] 0 (by decide) (by decide) (by decide) (by decide)
  constructor
  · exact Bool.eq_false_iff.mpr (fun hb => absurd (h.1.mp hb) (by decide))
  · exact Bool.eq_false_iff.mpr (fun hb => absurd (h.2.mp hb) (by decide))

theorem fileLoop_append_none (mem : Mem) (bytes : List Nat) (s : Symbols)
    (q : List Nat) : ∀ (l1 l2 : List Nat),
    (∀ i ∈ l1, fileStep mem bytes s q i = .ok none) →
    fileLoop mem bytes s q (l1 ++ l2) = fileLoop mem bytes s q l2 := by
  intro l1
  induction l1 with
  | nil =>
    intro l2 _
    rfl
  | cons a l ih =>
    intro l2 h
    have ha := h a (List.mem_cons_self a l)
    simp only [List.cons_append, fileLoop, ha]
    exact ih l2 (fun i hi => h i (List.mem_cons_of_mem a hi))

theorem fileLoop_all_none (mem : Mem) (bytes : List Nat) (s : Symbols)
    (q : List Nat) : ∀ (l : List Nat),
    (∀ i ∈ l, fileStep mem bytes s q i = .ok none) →
    fileLoop mem bytes s q l = .ok none := by
  intro l
  induction l with
  | nil =>
    intro _
    rfl
  | cons a l2 ih =>
    intro h
    have ha := h a (List.mem_cons_self a l2)
    simp only [fileLoop, ha]
    exact ih (fun i hi => h i (List.mem_cons_of_mem a hi))

theorem range_split (n j : Nat) (h : j ≤ n) :
    List.range n = List.range j ++ List.range' j (n - j) := by
  have e : n - j + j = n := by omega
  have happ := List.range'_append_1 0 j (n - j)
  rw [Nat.zero_add, e] at happ
  rw [List.range_eq_range', List.range_eq_range']
  exact happ.symm

theorem fileStep_found (mem : Mem) (bytes : List Nat) (s : Symbols) (q : List Nat)
    (j o v : Nat) (sig : List Nat)
    (ho : slice_read32 bytes (s.symtab_fileoff + j * 16) = .ok o)
    (hnc : nameCheckAt bytes (s.strtab_fileoff + o) q = true)
    (hv : slice_read64 bytes (s.symtab_fileoff + j * 16 + 8) = .ok v)
    (hsig : slice_readArr bytes v 20 = .ok sig) :
    fileStep mem bytes s q j =
      .ok (some (scan_process_range mem sig s.module_range)) := by
  obtain ⟨h0, hex⟩ := (nameCheckAt_true_iff _ _ _).mp hnc
  unfold fileStep
  simp only [MachOFormatOffsets.new]
  rw [show (0x10 : Nat) = 16 from rfl, show (0x08 : Nat) = 8 from rfl]
  simp only [ho, h0, hex, hv, hsig]
  simp

/-- Claim C2 (amended): `find_address` first tries the live path — when
some yielded symbol's 128-byte name read matches the query, it returns
that (first such) symbol's address, for every value of the file-system
input alike (no file access decides the result).  When no live symbol
matches, the name is present in the on-disk symbol table at entry `j`
(every earlier entry being readable and non-matching), the entry's
20-byte signature is extractable, and the byte-pattern scanner finds the
signature in the module range at `a`, it returns `a`.  When the name is
absent from the live iteration and the file path finds nothing — no
file, no header read, header not found in the file, or every entry
readable and non-matching — it returns nothing.  (An entry whose reads
leave the file buffer's bounds instead panics; see the out-of-bounds
counterexample.) -/
theorem find_address_spec (mem : Mem) (file? : Option (List Nat)) (s : Symbols)
    (q : List Nat) :
    (∀ sym, (Symbols.iter mem s).find? (liveNameMatches mem q) = some sym →
      Symbols.find_address mem file? s q = .ok (some sym.address)) ∧
    (∀ all_bytes hd off j o v sig a,
      (Symbols.iter mem s).find? (liveNameMatches mem q) = none →
      file? = some all_bytes →
      readBytes mem s.page HEADER_SIZE = some hd →
      memFind all_bytes hd = some off →
      j < s.number_of_symbols →
      (∀ i, i < j → fileStep mem (all_bytes.drop off) s q i = .ok none) →
      slice_read32 (all_bytes.drop off) (s.symtab_fileoff + j * 16) = .ok o →
      nameCheckAt (all_bytes.drop off) (s.strtab_fileoff + o) q = true →
      slice_read64 (all_bytes.drop off) (s.symtab_fileoff + j * 16 + 8) = .ok v →
      slice_readArr (all_bytes.drop off) v 20 = .ok sig →
      scan_process_range mem sig s.module_range = some a →
      Symbols.find_address mem file? s q = .ok (some a)) ∧
    ((Symbols.iter mem s).find? (liveNameMatches mem q) = none →
      (file? = none ∨
       ∃ all_bytes, file? = some all_bytes ∧
         (readBytes mem s.page HEADER_SIZE = none ∨
          ∃ hd, readBytes mem s.page HEADER_SIZE = some hd ∧
            (memFind all_bytes hd = none ∨
             ∃ off, memFind all_bytes hd = some off ∧
               ∀ i, i < s.number_of_symbols →
                 fileStep mem (all_bytes.drop off) s q i = .ok none))) →
      Symbols.find_address mem file? s q = .ok none) := by
  refine ⟨?_, ?_, ?_⟩
  · intro sym hfind
    unfold Symbols.find_address
    rw [hfind]
  · intro all_bytes hd off j o v sig a hlive hfile hhd hoff hj hpref ho hnc hv hsig hscan
    subst hfile
    unfold Symbols.find_address
    simp only [hlive, hhd, hoff]
    rw [range_split s.number_of_symbols j (Nat.le_of_lt hj)]
    rw [fileLoop_append_none mem (all_bytes.drop off) s q (List.range j) _
      (fun i hi => hpref i (List.mem_range.mp hi))]
    have hsplit : s.number_of_symbols - j = (s.number_of_symbols - j - 1) + 1 := by
      omega
    rw [hsplit, List.range'_succ]
    simp only [fileLoop,
      fileStep_found mem (all_bytes.drop off) s q j o v sig ho hnc hv hsig]
    rw [hscan]
  · intro hlive hcases
    unfold Symbols.find_address
    rcases hcases with hnone | ⟨all_bytes, hfile, hrest⟩
    · subst hnone
      simp only [hlive]
    · subst hfile
      rcases hrest with hhd | ⟨hd, hhd, hrest2⟩
      · simp only [hlive, hhd]
      · rcases hrest2 with hoff | ⟨off, hoff, hall⟩
        · simp only [hlive, hhd, hoff]
        · simp only [hlive, hhd, hoff]
          exact fileLoop_all_none mem (all_bytes.drop off) s q _
            (fun i hi => hall i (List.mem_range.mp hi))

/-- Claim C2, counterexample to the claim as stated: the query "b"
(byte 98) is absent from the live iteration and from the on-disk file,
yet `find_address` does not return nothing — the file's only entry
carries name offset 0xffff, and the NUL-boundary index walks off the
48-byte buffer, so the call panics. -/
theorem find_address_absent_panics_cex :
    (Symbols.iter memC9 sC9).find? (liveNameMatches memC9 [98]) = none ∧
    Symbols.find_address memC9 (some fileC9) sC9 [98] = .error () ∧
    (Except.error () : Except Unit (Option Nat)) ≠ .ok none :=
  ⟨by decide, by decide, fun hc => Except.noConfusion hc⟩

/-- Claim C2, witness: the file-fallback success path at a concrete
input — query "a" is absent live, found in the file at entry 0, and its
20-byte signature is located at address 32 of the module range. -/
theorem find_address_spec_witness :
    Symbols.find_address memW2 (some fileW2) sW2 [97] = .ok (some 32) :=
  (find_address_spec memW2 (some fileW2) sW2 [97]).2.1 fileW2 (fileW2.take 32) 0 0 0
    30 (extract fileW2 30 50) 32 (by decide) rfl (by decide) (by decide) (by decide)
    (by decide) (by decide) (by decide) (by decide) (by decide) (by decide)

end MachO
